import Mathlib

/-!
Verification development for the financial-planner repository.

The file shallowly embeds the four algorithmic components the spec singles
out — the savings-goal deposit optimizer (`goalController.js`), the
sliding-window login-attempt limiter (`utils/rateLimiter.js`), the TOTP
engine (`utils/totp.js`), and the base32 secret codec — and proves the
frozen claims about them.  Numbers the JavaScript source manipulates as
IEEE doubles are modelled as exact rationals (`ℚ`); machine integers in the
TOTP bit twiddling are modelled as `ℕ` with the masks the source applies.
-/

-- Core marks the arithmetic on `Rat` irreducible; unsealing it lets concrete
-- runs of the embedded code be checked by `decide`.
unseal Rat.add Rat.mul Rat.sub Rat.inv

/-! ## Goal Optimizer (src/unnamed/part_011, `goalController.js`) -/

/-- `Number(x.toFixed(2))` on the nonnegative values the optimizer produces:
round half up at the second decimal digit. -/
def round2 (q : ℚ) : ℚ := (round (100 * q) : ℤ) / 100

/-- Result of `simulateInvestment`: the (unrounded) final balance together
with the list of `{month, balance}` rows pushed by the loop. -/
structure SimResult where
  balance : ℚ
  projection : List (ℕ × ℚ)
deriving DecidableEq

/-- One month of `simulateInvestment`:
`balance += deposit; balance += balance * monthlyRate`. -/
def simStep (monthlyRate deposit b : ℚ) : ℚ :=
  (b + deposit) + (b + deposit) * monthlyRate

/-- The month loop of `simulateInvestment` (lines 51–59): `k` months remain,
`b` is the current balance, `i` is the 1-based month index. -/
def simAux (monthlyRate deposit : ℚ) : ℕ → ℚ → ℕ → ℚ × List (ℕ × ℚ)
  | 0, b, _ => (b, [])
  | k + 1, b, i =>
    let b2 := simStep monthlyRate deposit b
    let rest := simAux monthlyRate deposit k b2 (i + 1)
    (rest.1, (i, round2 b2) :: rest.2)

/-- `simulateInvestment(deposit)` (lines 47–62).  The JavaScript loop
`for (let i = 1; i <= totalMonths; i++)` executes `⌊totalMonths⌋` times
(and zero times when `totalMonths < 1`). -/
def simulateInvestment (monthlyRate totalMonths deposit : ℚ) : SimResult :=
  let r := simAux monthlyRate deposit (⌊totalMonths⌋).toNat 0 1
  ⟨r.1, r.2⟩

/-- The mutable locals of the binary-search loop (lines 70–74):
`low`, `high`, `mid` (uninitialised, hence `Option`), `iterations`,
`finalProjection`. -/
structure LoopState where
  low : ℚ
  high : ℚ
  mid : Option ℚ
  iterations : ℕ
  finalProjection : List (ℕ × ℚ)
deriving DecidableEq

/-- The `while (high - low > 0.01)` loop (lines 76–87), with a fuel
parameter bounding the recursion depth; `calculateRequiredDeposit` supplies
fuel large enough that the loop always exits through its own condition
(`loopGo_width` below). -/
def loopGo (goal monthlyRate totalMonths : ℚ) : ℕ → LoopState → LoopState
  | 0, st => st
  | fuel + 1, st =>
    if 1 / 100 < st.high - st.low then
      let m := (st.low + st.high) / 2
      let r := simulateInvestment monthlyRate totalMonths m
      if r.balance < goal then
        loopGo goal monthlyRate totalMonths fuel
          ⟨m, st.high, some m, st.iterations + 1, st.finalProjection⟩
      else
        loopGo goal monthlyRate totalMonths fuel
          ⟨st.low, m, some m, st.iterations + 1, r.projection⟩
    else st

/-- Fuel that always outlasts the loop: the interval width starts at `goal`
and halves every iteration, and `100 * goal ≤ 2 ^ ⌈100 * goal⌉`. -/
def sufficientFuel (goal : ℚ) : ℕ := (⌈100 * goal⌉).toNat

/-- `low = 0, high = goal, mid undefined, iterations = 0,
finalProjection = []` (lines 70–74). -/
def initState (goal : ℚ) : LoopState := ⟨0, goal, none, 0, []⟩

/-- The binary-search phase of `calculateRequiredDeposit`: the state of the
loop locals when the `while` loop exits. -/
def solveState (goal totalMonths annualRate : ℚ) : LoopState :=
  loopGo goal (annualRate / 100 / 12) totalMonths (sufficientFuel goal) (initState goal)

/-- A field of the JSON request body after `Number(...)` conversion:
absent, not a number, or a numeric value. -/
inductive JSVal
  | undef
  | nan
  | num (q : ℚ)
deriving DecidableEq

/-- The successful (200) response payload of `calculateRequiredDeposit`:
the numeric value of `mid.toFixed(2)`, the projection, and the iteration
count. -/
structure DepositResult where
  requiredDeposit : ℚ
  projection : List (ℕ × ℚ)
  iterations : ℕ
deriving DecidableEq

/-- Observable outcome of `calculateRequiredDeposit`: a 400 validation
response, the 500 response produced by the `catch` block, or a 200
response carrying a `DepositResult`. -/
inductive Response
  | badRequest
  | internalError
  | ok (r : DepositResult)
deriving DecidableEq

/-- `calculateRequiredDeposit` (lines 9–102).  Missing fields and
non-numeric fields return 400 (lines 14–32), as do
`goal <= 0 || totalMonths <= 0 || rate < 0` (lines 34–38).  After the loop
the source evaluates `mid.toFixed(2)`; when the loop body never ran, `mid`
is still `undefined`, the call throws, and the `catch` block answers 500. -/
def calculateRequiredDeposit (goalAmount months annualRate : JSVal) : Response :=
  match goalAmount, months, annualRate with
  | .num goal, .num totalMonths, .num rate =>
    if goal ≤ 0 ∨ totalMonths ≤ 0 ∨ rate < 0 then .badRequest
    else
      let st := solveState goal totalMonths rate
      match st.mid with
      | none => .internalError
      | some m => .ok ⟨round2 m, st.finalProjection, st.iterations⟩
  | _, _, _ => .badRequest

example : calculateRequiredDeposit (.num 1) (.num 1) (.num 0) =
    .ok ⟨99 / 100, [], 7⟩ := by decide

example : calculateRequiredDeposit (.num (1 / 200)) (.num 12) (.num 0) =
    .internalError := by decide

example : calculateRequiredDeposit (.num 10) (.num (5 / 2)) (.num 0) =
    .ok ⟨499 / 100, [(1, 5), (2, 10)], 10⟩ := by decide

/-! ## Attempt Limiter (src/backend/utils/rateLimiter.js) -/

/-- `MAX_ATTEMPTS = 5`. -/
def MAX_ATTEMPTS : ℕ := 5

/-- `WINDOW_MS = 60 * 1000`. -/
def WINDOW_MS : ℤ := 60 * 1000

/-- `checkRateLimit(email)` acting on the queue stored for one identity.
`attempts` is the per-email array in the `loginAttempts` map (`[]` when the
email was absent), `now` is `Date.now()`; the result is the returned
boolean paired with the array left in the map.  The `while` loop shifts
expired timestamps off the front, which is `List.dropWhile`. -/
def checkRateLimit (attempts : List ℤ) (now : ℤ) : Bool × List ℤ :=
  let pruned := attempts.dropWhile fun t => decide (WINDOW_MS < now - t)
  if MAX_ATTEMPTS ≤ pruned.length then (false, pruned)
  else (true, pruned ++ [now])

example : checkRateLimit [0, 10, 20, 30, 40] 50 = (false, [0, 10, 20, 30, 40]) := by decide
example : checkRateLimit [0, 10, 20, 30] 50 = (true, [0, 10, 20, 30, 50]) := by decide
example : checkRateLimit [0, 10, 20, 30, 40] 70000 = (true, [70000]) := by decide

/-! ## Secret Codec

The repository encodes secrets with the `thirty-two` npm package
(`base32.encode(rawSecret).toString().replace(/=/g, "")` in
`authController.js`, `base32.decode(base32Secret)` in `utils/totp.js`);
the codec itself is not part of the repository.  Modelled from the spec:
“text representation of Secret using a standard 5-bit alphabet with
padding removed”, with `decode` failing on characters outside the
alphabet. -/

/-- A byte. -/
abbrev Byte := Fin 256

/-- The RFC 4648 base32 alphabet. -/
def base32Alphabet : List Char :=
  ['A', 'B', 'C', 'D', 'E', 'F', 'G', 'H', 'I', 'J', 'K', 'L', 'M',
   'N', 'O', 'P', 'Q', 'R', 'S', 'T', 'U', 'V', 'W', 'X', 'Y', 'Z',
   '2', '3', '4', '5', '6', '7']

/-- Index of a character in an alphabet, `none` when absent. -/
def alphaIdx : List Char → Char → Option ℕ
  | [], _ => none
  | a :: rest, c => if c = a then some 0 else (alphaIdx rest c).map (· + 1)

/-- Value of one base32 character; `none` for characters outside the
alphabet (the `DecodeError` case). -/
def charVal (c : Char) : Option ℕ := alphaIdx base32Alphabet c

/-- The eight bits of a byte, most significant first. -/
def byteBits (b : Byte) : List Bool :=
  [b.val.testBit 7, b.val.testBit 6, b.val.testBit 5, b.val.testBit 4,
   b.val.testBit 3, b.val.testBit 2, b.val.testBit 1, b.val.testBit 0]

/-- The bit stream of a byte sequence, most significant bit first. -/
def bytesBits (bs : List Byte) : List Bool := (bs.map byteBits).flatten

/-- Value of a 5-bit group, most significant bit first. -/
def val5 (a b c d e : Bool) : ℕ :=
  16 * a.toNat + 8 * b.toNat + 4 * c.toNat + 2 * d.toNat + e.toNat

/-- Zero-pad a bit stream on the right to a multiple of 5 bits. -/
def padTo5 (l : List Bool) : List Bool :=
  l ++ List.replicate ((5 - l.length % 5) % 5) false

/-- Split a bit stream (whose length is a multiple of 5) into 5-bit values. -/
def chunk5 : List Bool → List ℕ
  | a :: b :: c :: d :: e :: rest => val5 a b c d e :: chunk5 rest
  | _ => []

/-- The five bits of a 5-bit value, most significant first. -/
def bits5 (v : ℕ) : List Bool :=
  [v.testBit 4, v.testBit 3, v.testBit 2, v.testBit 1, v.testBit 0]

/-- Reassemble a byte from eight bits, most significant first. -/
def byteOfBits (a b c d e f g h : Bool) : Byte :=
  ⟨128 * a.toNat + 64 * b.toNat + 32 * c.toNat + 16 * d.toNat +
      8 * e.toNat + 4 * f.toNat + 2 * g.toNat + h.toNat, by
    have ha := Bool.toNat_lt a
    have hb := Bool.toNat_lt b
    have hc := Bool.toNat_lt c
    have hd := Bool.toNat_lt d
    have he := Bool.toNat_lt e
    have hf := Bool.toNat_lt f
    have hg := Bool.toNat_lt g
    have hh := Bool.toNat_lt h
    omega⟩

/-- Group a bit stream into bytes, eight bits at a time, discarding the
trailing group of fewer than eight bits (the bits contributed by padding). -/
def bytesOfBits : List Bool → List Byte
  | a :: b :: c :: d :: e :: f :: g :: h :: rest =>
    byteOfBits a b c d e f g h :: bytesOfBits rest
  | _ => []

/-- Modelled from the spec: `encode(bytes) -> text`, the standard 5-bit
(base32) alphabet encoding with padding removed (the `thirty-two` package
composed with `.replace(/=/g, "")` — neither is in `src/`). -/
def base32encode (bs : List Byte) : List Char :=
  (chunk5 (padTo5 (bytesBits bs))).map fun v => base32Alphabet.getD v 'A'

/-- Look up every character of the text; `none` as soon as one character
is outside the alphabet. -/
def charVals : List Char → Option (List ℕ)
  | [] => some []
  | c :: cs =>
    match charVal c, charVals cs with
    | some v, some vs => some (v :: vs)
    | _, _ => none

/-- Modelled from the spec: `decode(text) -> bytes`, failing (`none`, the
`DecodeError`) when the input contains characters outside the encoding
alphabet (the `thirty-two` package is not in `src/`). -/
def base32decode (s : List Char) : Option (List Byte) :=
  (charVals s).map fun vs => bytesOfBits ((vs.map bits5).flatten)

example : base32encode [⟨72, by omega⟩, ⟨105, by omega⟩] = ['J', 'B', 'U', 'Q'] := by decide
example : base32decode ['J', 'B', 'U', 'Q'] = some [⟨72, by omega⟩, ⟨105, by omega⟩] := by decide
example : base32decode ['j', '1'] = none := by decide

/-! ## TOTP Engine (src/backend/utils/totp.js, `generateTOTP`) -/

/-- `buffer.writeUInt32BE(v, _)`: the four big-endian bytes of a 32-bit
value. -/
def beUInt32 (v : ℕ) : List Byte :=
  [⟨v / 2 ^ 24 % 256, Nat.mod_lt _ (by norm_num)⟩,
   ⟨v / 2 ^ 16 % 256, Nat.mod_lt _ (by norm_num)⟩,
   ⟨v / 2 ^ 8 % 256, Nat.mod_lt _ (by norm_num)⟩,
   ⟨v % 256, Nat.mod_lt _ (by norm_num)⟩]

/-- The 8-byte counter buffer of `generateTOTP` (lines 35–37):
`writeUInt32BE(0, 0)` then `writeUInt32BE(counter, 4)`. -/
def counterBytes (counter : ℕ) : List Byte := beUInt32 0 ++ beUInt32 counter

/-- The claim's wording of the serialization: the counter as an 8-byte
big-endian integer. -/
def beBytes8 (v : ℕ) : List Byte :=
  [⟨v / 2 ^ 56 % 256, Nat.mod_lt _ (by norm_num)⟩,
   ⟨v / 2 ^ 48 % 256, Nat.mod_lt _ (by norm_num)⟩,
   ⟨v / 2 ^ 40 % 256, Nat.mod_lt _ (by norm_num)⟩,
   ⟨v / 2 ^ 32 % 256, Nat.mod_lt _ (by norm_num)⟩,
   ⟨v / 2 ^ 24 % 256, Nat.mod_lt _ (by norm_num)⟩,
   ⟨v / 2 ^ 16 % 256, Nat.mod_lt _ (by norm_num)⟩,
   ⟨v / 2 ^ 8 % 256, Nat.mod_lt _ (by norm_num)⟩,
   ⟨v % 256, Nat.mod_lt _ (by norm_num)⟩]

/-- Dynamic truncation exactly as written in `generateTOTP` (lines 43–48):
`offset = digest[19] & 0xf`, then
`((digest[offset] & 0x7f) << 24) | ((digest[offset+1] & 0xff) << 16) |
((digest[offset+2] & 0xff) << 8) | (digest[offset+3] & 0xff)`. -/
def dynamicTruncate (digest : List Byte) : ℕ :=
  let off := (digest.getD 19 0).val % 16
  ((digest.getD off 0).val % 128) <<< 24 |||
    (digest.getD (off + 1) 0).val <<< 16 |||
    (digest.getD (off + 2) 0).val <<< 8 |||
    (digest.getD (off + 3) 0).val

/-- The claim's wording of dynamic truncation: read 4 bytes big-endian
from the offset given by the low 4 bits of the last digest byte, masking
the top bit to get a 31-bit integer. -/
def truncSpec (digest : List Byte) : ℕ :=
  let off := (digest.getD 19 0).val % 16
  ((digest.getD off 0).val % 128) * 2 ^ 24 +
    (digest.getD (off + 1) 0).val * 2 ^ 16 +
    (digest.getD (off + 2) 0).val * 2 ^ 8 +
    (digest.getD (off + 3) 0).val

/-- Modelled from the spec: decimal digit characters of a natural number,
as produced by the JavaScript `otp.toString()` (lines 50–51; the runtime's
number formatting is not in `src/`).  The fuel argument strictly dominates
the value, so it never runs out. -/
def natDecAux : ℕ → ℕ → List Char
  | 0, _ => []
  | fuel + 1, n =>
    if n < 10 then [Char.ofNat (48 + n % 10)]
    else natDecAux fuel (n / 10) ++ [Char.ofNat (48 + n % 10)]

/-- Decimal representation of a natural number (JS `Number.toString()`). -/
def natDec (n : ℕ) : List Char := natDecAux (n + 1) n

/-- `s.padStart(6, '0')`. -/
def padStart6 (s : List Char) : List Char :=
  List.replicate (6 - s.length) '0' ++ s

/-- `generateTOTP` after the base32 decode (lines 31–51), over the raw
byte secret.  The HMAC is a parameter: the spec's “HMAC ... using a
160-bit-digest hash function” (`crypto.createHmac('sha1', ...)`, not in
`src/`) modelled as an arbitrary keyed digest function; `nowMs` is
`Date.now()`. -/
def totpFromBytes (hmac : List Byte → List Byte → List Byte)
    (secret : List Byte) (nowMs : ℕ) : List Char :=
  let currentTime := nowMs / 1000
  let counter := currentTime / 30
  let digest := hmac secret (counterBytes counter)
  let otp := dynamicTruncate digest % 1000000
  padStart6 (natDec otp)

/-- `generateTOTP(base32Secret)` (lines 28–52): decode the base32 secret,
then run the TOTP pipeline; `none` models the decode throwing. -/
def generateTOTP (hmac : List Byte → List Byte → List Byte)
    (base32Secret : List Char) (nowMs : ℕ) : Option (List Char) :=
  (base32decode base32Secret).map fun secret => totpFromBytes hmac secret nowMs

/-- The claim's wording of the whole pipeline: counter from epoch seconds,
8-byte big-endian serialization, keyed digest, dynamic truncation, modulo
10^6, zero-padded to 6 digits. -/
def totpSpecPipeline (hmac : List Byte → List Byte → List Byte)
    (secret : List Byte) (nowMs : ℕ) : List Char :=
  let counter := nowMs / 1000 / 30
  let digest := hmac secret (beBytes8 counter)
  padStart6 (natDec (truncSpec digest % 1000000))

/-- The comparison step of `verifyCode`
(src/backend/controllers/authController.js lines 95–114):
`expected = generateTOTP(secret)`, then
`String(code) !== String(expected)` decides rejection, so the call
succeeds iff the submitted code equals the recomputed one. -/
def verifyCode (hmac : List Byte → List Byte → List Byte)
    (secret : List Byte) (submitted : List Char) (nowMs : ℕ) : Bool :=
  submitted = totpFromBytes hmac secret nowMs

/-- A stand-in digest function used to instantiate the HMAC parameter in
concrete witnesses: ignores its inputs and returns twenty zero bytes. -/
def hmacZero : List Byte → List Byte → List Byte :=
  fun _ _ => List.replicate 20 0

example : totpFromBytes hmacZero [] 0 = ['0', '0', '0', '0', '0', '0'] := by decide
example : padStart6 (natDec 42) = ['0', '0', '0', '0', '4', '2'] := by decide
example : verifyCode hmacZero [] ['0', '0', '0', '0', '0', '0'] 0 = true := by decide

/-! ## Helper lemmas: the simulator -/

/-- A zero deposit leaves the balance at zero forever. -/
theorem simAux_balance_zero (mr : ℚ) (k i : ℕ) : (simAux mr 0 k 0 i).1 = 0 := by
  induction k generalizing i with
  | zero => rfl
  | succ k ih =>
    simpa [simAux, simStep] using ih (i + 1)

/-- With nonnegative deposit and rate the balance never decreases below its
starting value. -/
theorem simAux_balance_ge (mr d : ℚ) (hd : 0 ≤ d) (hmr : 0 ≤ mr) :
    ∀ (k i : ℕ) (b : ℚ), 0 ≤ b → b ≤ (simAux mr d k b i).1 := by
  intro k
  induction k with
  | zero => intro i b hb; exact le_refl b
  | succ k ih =>
    intro i b hb
    have hstep : b ≤ simStep mr d b := by
      have h1 : 0 ≤ (b + d) * mr := mul_nonneg (by linarith) hmr
      simp only [simStep]; linarith
    have hb2 : (0 : ℚ) ≤ simStep mr d b := le_trans hb hstep
    have := ih (i + 1) (simStep mr d b) hb2
    calc b ≤ simStep mr d b := hstep
      _ ≤ (simAux mr d k (simStep mr d b) (i + 1)).1 := this
      _ = (simAux mr d (k + 1) b i).1 := by simp [simAux]

/-- After at least one month, the balance is at least one deposit. -/
theorem simAux_balance_deposit (mr d : ℚ) (hd : 0 ≤ d) (hmr : 0 ≤ mr)
    (k i : ℕ) (hk : 1 ≤ k) : d ≤ (simAux mr d k 0 i).1 := by
  obtain ⟨k, rfl⟩ : ∃ j, k = j + 1 := ⟨k - 1, by omega⟩
  have hstep : d ≤ simStep mr d 0 := by
    have h1 : 0 ≤ (0 + d) * mr := mul_nonneg (by linarith) hmr
    simp only [simStep]; linarith
  have hb2 : (0 : ℚ) ≤ simStep mr d 0 := le_trans hd hstep
  have := simAux_balance_ge mr d hd hmr k (i + 1) (simStep mr d 0) hb2
  calc d ≤ simStep mr d 0 := hstep
    _ ≤ (simAux mr d k (simStep mr d 0) (i + 1)).1 := this
    _ = (simAux mr d (k + 1) 0 i).1 := by simp [simAux]

/-- The projection has one row per simulated month. -/
theorem simAux_proj_length (mr d : ℚ) :
    ∀ (k i : ℕ) (b : ℚ), (simAux mr d k b i).2.length = k := by
  intro k
  induction k with
  | zero => intro i b; rfl
  | succ k ih => intro i b; simp [simAux, ih]

/-- Row `j` of the projection carries month index `i + j`. -/
theorem simAux_proj_month (mr d : ℚ) :
    ∀ (k i : ℕ) (b : ℚ) (j : ℕ) (h : j < (simAux mr d k b i).2.length),
      ((simAux mr d k b i).2.get ⟨j, h⟩).1 = i + j := by
  intro k
  induction k with
  | zero => intro i b j h; simp [simAux] at h
  | succ k ih =>
    intro i b j h
    match j with
    | 0 => simp [simAux]
    | j + 1 =>
      have h2 : j < (simAux mr d k (simStep mr d b) (i + 1)).2.length := by
        simp only [simAux_proj_length] at h ⊢; omega
      have := ih (i + 1) (simStep mr d b) j h2
      simp only [simAux, List.get_cons_succ]
      rw [this]; omega

/-- Every balance pushed into the projection is already rounded to two
decimal places. -/
theorem simAux_proj_rounded (mr d : ℚ) :
    ∀ (k i : ℕ) (b : ℚ) (p : ℕ × ℚ), p ∈ (simAux mr d k b i).2 →
      round2 p.2 = p.2 := by
  intro k
  induction k with
  | zero => intro i b p hp; simp [simAux] at hp
  | succ k ih =>
    intro i b p hp
    simp only [simAux, List.mem_cons] at hp
    rcases hp with rfl | hp
    · show round2 (round2 _) = round2 _
      simp only [round2]
      rw [show (100 : ℚ) * ((round (100 * simStep mr d b) : ℤ) / 100) =
          ((round (100 * simStep mr d b) : ℤ) : ℚ) by ring]
      rw [round_intCast]
    · exact ih (i + 1) (simStep mr d b) p hp

/-! ## Helper lemmas: the binary-search loop -/

/-- The loop invariant of `loopGo`: the simulated balance at `low` stays
below the goal, the one at `high` stays at or above it, `low ≤ high`,
`mid` (once assigned) is the current `low` or `high`, and the recorded
projection is empty or comes from one simulated deposit. -/
theorem loopGo_inv (goal mr M : ℚ) :
    ∀ (fuel : ℕ) (st : LoopState),
      (simulateInvestment mr M st.low).balance < goal →
      goal ≤ (simulateInvestment mr M st.high).balance →
      st.low ≤ st.high →
      (st.mid = none ∨ st.mid = some st.low ∨ st.mid = some st.high) →
      (st.finalProjection = [] ∨
        ∃ d, st.finalProjection = (simulateInvestment mr M d).projection) →
      ((simulateInvestment mr M (loopGo goal mr M fuel st).low).balance < goal ∧
        goal ≤ (simulateInvestment mr M (loopGo goal mr M fuel st).high).balance ∧
        (loopGo goal mr M fuel st).low ≤ (loopGo goal mr M fuel st).high ∧
        ((loopGo goal mr M fuel st).mid = none ∨
          (loopGo goal mr M fuel st).mid = some (loopGo goal mr M fuel st).low ∨
          (loopGo goal mr M fuel st).mid = some (loopGo goal mr M fuel st).high) ∧
        ((loopGo goal mr M fuel st).finalProjection = [] ∨
          ∃ d, (loopGo goal mr M fuel st).finalProjection =
            (simulateInvestment mr M d).projection)) := by
  intro fuel
  induction fuel with
  | zero => intro st h1 h2 h3 h4 h5; exact ⟨h1, h2, h3, h4, h5⟩
  | succ fuel ih =>
    intro st h1 h2 h3 h4 h5
    by_cases hc : 1 / 100 < st.high - st.low
    · rw [loopGo, if_pos hc]
      by_cases hb : (simulateInvestment mr M ((st.low + st.high) / 2)).balance < goal
      · rw [if_pos hb]
        exact ih _ hb h2 (by dsimp only; linarith) (by simp) h5
      · rw [if_neg hb]
        exact ih _ h1 (le_of_not_lt hb) (by dsimp only; linarith) (by simp)
          (Or.inr ⟨(st.low + st.high) / 2, rfl⟩)
    · rw [loopGo, if_neg hc]
      exact ⟨h1, h2, h3, h4, h5⟩

/-- Each pass through the loop body halves the interval, so after running
on `fuel` the interval is either narrower than `(high - low) / 2 ^ fuel`
or already below the exit threshold. -/
theorem loopGo_width (goal mr M : ℚ) :
    ∀ (fuel : ℕ) (st : LoopState),
      (loopGo goal mr M fuel st).high - (loopGo goal mr M fuel st).low ≤
          (st.high - st.low) / 2 ^ fuel ∨
        (loopGo goal mr M fuel st).high - (loopGo goal mr M fuel st).low ≤ 1 / 100 := by
  intro fuel
  induction fuel with
  | zero =>
    intro st
    left
    simp [loopGo]
  | succ fuel ih =>
    intro st
    by_cases hc : 1 / 100 < st.high - st.low
    · rw [loopGo, if_pos hc]
      by_cases hb : (simulateInvestment mr M ((st.low + st.high) / 2)).balance < goal
      · rw [if_pos hb]
        rcases ih ⟨(st.low + st.high) / 2, st.high, some ((st.low + st.high) / 2),
            st.iterations + 1, st.finalProjection⟩ with h | h
        · left
          refine le_trans h ?_
          dsimp only
          rw [div_le_div_iff₀ (by positivity) (by positivity)]
          ring_nf
          nlinarith [pow_pos (show (0:ℚ) < 2 by norm_num) fuel]
        · right; exact h
      · rw [if_neg hb]
        rcases ih ⟨st.low, (st.low + st.high) / 2, some ((st.low + st.high) / 2),
            st.iterations + 1,
            (simulateInvestment mr M ((st.low + st.high) / 2)).projection⟩ with h | h
        · left
          refine le_trans h ?_
          dsimp only
          rw [div_le_div_iff₀ (by positivity) (by positivity)]
          ring_nf
          nlinarith [pow_pos (show (0:ℚ) < 2 by norm_num) fuel]
        · right; exact h
    · rw [loopGo, if_neg hc]
      right
      linarith

/-- The chosen fuel makes the loop exit through its own condition: at the
state `solveState` returns, `high - low ≤ 0.01`. -/
theorem solveState_width (goal M rate : ℚ) (hg : 0 < goal) :
    (solveState goal M rate).high - (solveState goal M rate).low ≤ 1 / 100 := by
  rcases loopGo_width goal (rate / 100 / 12) M (sufficientFuel goal) (initState goal)
    with h | h
  · rw [solveState]
    refine le_trans h ?_
    have hceil : (100 : ℚ) * goal ≤ ((sufficientFuel goal : ℕ) : ℚ) := by
      have h1 : (100 : ℚ) * goal ≤ (⌈(100 : ℚ) * goal⌉ : ℤ) := Int.le_ceil _
      have h2 : (0 : ℤ) ≤ ⌈(100 : ℚ) * goal⌉ := by positivity
      rw [sufficientFuel]
      have h3 : ((⌈(100 : ℚ) * goal⌉.toNat : ℕ) : ℚ) = ((⌈(100 : ℚ) * goal⌉ : ℤ) : ℚ) := by
        exact_mod_cast congrArg (fun z : ℤ => (z : ℚ)) (Int.toNat_of_nonneg h2)
      rw [h3]
      exact h1
    have hpow : ((sufficientFuel goal : ℕ) : ℚ) < 2 ^ sufficientFuel goal := by
      exact_mod_cast Nat.lt_two_pow (sufficientFuel goal)
    have hp : (0 : ℚ) < 2 ^ sufficientFuel goal := by positivity
    show ((initState goal).high - (initState goal).low) / _ ≤ _
    rw [initState]
    dsimp only
    rw [div_le_div_iff₀ hp (by norm_num : (0:ℚ) < 100)]
    nlinarith
  · exact h

/-- With a whole number of months, the simulator runs exactly `n` month
steps. -/
theorem simulateInvestment_natCast (mr d : ℚ) (n : ℕ) :
    simulateInvestment mr (n : ℚ) d = ⟨(simAux mr d n 0 1).1, (simAux mr d n 0 1).2⟩ := by
  rw [simulateInvestment]
  norm_num

/-- The loop invariant holds at the state the solver returns, for any valid
input (`goal > 0`, a positive whole number of months, nonnegative rate). -/
theorem solveState_inv (goal rate : ℚ) (n : ℕ) (hg : 0 < goal) (hn : 1 ≤ n)
    (hr : 0 ≤ rate) :
    (simulateInvestment (rate / 100 / 12) (n : ℚ)
        (solveState goal (n : ℚ) rate).low).balance < goal ∧
      goal ≤ (simulateInvestment (rate / 100 / 12) (n : ℚ)
        (solveState goal (n : ℚ) rate).high).balance ∧
      (solveState goal (n : ℚ) rate).low ≤ (solveState goal (n : ℚ) rate).high ∧
      ((solveState goal (n : ℚ) rate).mid = none ∨
        (solveState goal (n : ℚ) rate).mid = some (solveState goal (n : ℚ) rate).low ∨
        (solveState goal (n : ℚ) rate).mid = some (solveState goal (n : ℚ) rate).high) ∧
      ((solveState goal (n : ℚ) rate).finalProjection = [] ∨
        ∃ d, (solveState goal (n : ℚ) rate).finalProjection =
          (simulateInvestment (rate / 100 / 12) (n : ℚ) d).projection) := by
  have hmr : (0 : ℚ) ≤ rate / 100 / 12 :=
    div_nonneg (div_nonneg hr (by norm_num)) (by norm_num)
  have hlow : (simulateInvestment (rate / 100 / 12) (n : ℚ) (initState goal).low).balance
      < goal := by
    rw [initState]
    dsimp only
    rw [simulateInvestment_natCast]
    dsimp only
    rw [simAux_balance_zero]
    exact hg
  have hhigh : goal ≤ (simulateInvestment (rate / 100 / 12) (n : ℚ)
      (initState goal).high).balance := by
    rw [initState]
    dsimp only
    rw [simulateInvestment_natCast]
    exact simAux_balance_deposit _ goal (le_of_lt hg) hmr n 1 hn
  exact loopGo_inv goal (rate / 100 / 12) (n : ℚ) (sufficientFuel goal)
    (initState goal) hlow hhigh (by rw [initState]; exact le_of_lt hg)
    (Or.inl rfl) (Or.inl rfl)

/-- A 200 response determines the payload from the loop's final state. -/
theorem calc_ok_elim (goal M rate : ℚ) (r : DepositResult)
    (hok : calculateRequiredDeposit (.num goal) (.num M) (.num rate) = .ok r) :
    ∃ m, (solveState goal M rate).mid = some m ∧
      r = ⟨round2 m, (solveState goal M rate).finalProjection,
        (solveState goal M rate).iterations⟩ := by
  by_cases hv : goal ≤ 0 ∨ M ≤ 0 ∨ rate < 0
  · rw [calculateRequiredDeposit] at hok
    simp only [if_pos hv] at hok
    exact absurd hok (by simp)
  · rw [calculateRequiredDeposit] at hok
    simp only [if_neg hv] at hok
    rcases hmid : (solveState goal M rate).mid with _ | m
    · rw [hmid] at hok
      simp at hok
    · rw [hmid] at hok
      simp only [Response.ok.injEq] at hok
      exact ⟨m, rfl, hok.symm⟩

/-- C1 (amended): for a valid input on which `calculateRequiredDeposit`
returns a 200 payload, the returned `requiredDeposit` is the final `mid`
rounded to 2 decimals, and that `mid` is the final `low` or the final
`high` of the search interval, where simulating the final `high` reaches
the target, simulating the final `low` falls short of it, and the interval
is at most 0.01 wide.  (The claim's stronger statement — that the returned
deposit itself always simulates to at least the target and always equals
the rounded `high` — is refuted by `C1_deposit_invariant_counterexample`:
the source returns `mid`, which can be the final `low`.) -/
theorem C1_deposit_interval_amended (goal rate : ℚ) (n : ℕ) (r : DepositResult)
    (hg : 0 < goal) (hn : 1 ≤ n) (hr : 0 ≤ rate)
    (hok : calculateRequiredDeposit (.num goal) (.num (n : ℚ)) (.num rate) = .ok r) :
    ∃ m, (solveState goal (n : ℚ) rate).mid = some m ∧
      r.requiredDeposit = round2 m ∧
      (m = (solveState goal (n : ℚ) rate).low ∨
        m = (solveState goal (n : ℚ) rate).high) ∧
      (simulateInvestment (rate / 100 / 12) (n : ℚ)
        (solveState goal (n : ℚ) rate).low).balance < goal ∧
      goal ≤ (simulateInvestment (rate / 100 / 12) (n : ℚ)
        (solveState goal (n : ℚ) rate).high).balance ∧
      (solveState goal (n : ℚ) rate).high - (solveState goal (n : ℚ) rate).low ≤
        1 / 100 := by
  obtain ⟨m, hmid, hr2⟩ := calc_ok_elim goal (n : ℚ) rate r hok
  obtain ⟨hlow, hhigh, _, hmiddisj, _⟩ := solveState_inv goal rate n hg hn hr
  refine ⟨m, hmid, by rw [hr2], ?_, hlow, hhigh, solveState_width goal (n : ℚ) rate hg⟩
  rcases hmiddisj with h | h | h
  · rw [hmid] at h; exact absurd h (by simp)
  · rw [hmid] at h; exact Or.inl (by injection h)
  · rw [hmid] at h; exact Or.inr (by injection h)

/-- Witness for C1 (amended) at `goalAmount = 1, months = 1, annualRate = 0`. -/
theorem C1_deposit_interval_amended_witness :
    ∃ m, (solveState 1 ((1 : ℕ) : ℚ) 0).mid = some m ∧
      (99 / 100 : ℚ) = round2 m ∧
      (m = (solveState 1 ((1 : ℕ) : ℚ) 0).low ∨
        m = (solveState 1 ((1 : ℕ) : ℚ) 0).high) ∧
      (simulateInvestment ((0 : ℚ) / 100 / 12) ((1 : ℕ) : ℚ)
        (solveState 1 ((1 : ℕ) : ℚ) 0).low).balance < 1 ∧
      (1 : ℚ) ≤ (simulateInvestment ((0 : ℚ) / 100 / 12) ((1 : ℕ) : ℚ)
        (solveState 1 ((1 : ℕ) : ℚ) 0).high).balance ∧
      (solveState 1 ((1 : ℕ) : ℚ) 0).high - (solveState 1 ((1 : ℕ) : ℚ) 0).low ≤
        1 / 100 :=
  C1_deposit_interval_amended 1 0 1 ⟨99 / 100, [], 7⟩ (by norm_num) (le_refl 1)
    (le_refl 0) (by decide)

/-- C1 counterexample: at `goalAmount = 1, months = 1, annualRate = 0` the
source returns `requiredDeposit = 0.99` (the final `mid`, which here is the
final `low`), simulating it yields a final balance `0.99 < 1` — so the
claimed invariant `simulate(requiredDeposit).balance >= targetAmount`
fails — and the returned deposit differs from the rounded final `high`. -/
theorem C1_deposit_invariant_counterexample :
    calculateRequiredDeposit (.num 1) (.num 1) (.num 0) = .ok ⟨99 / 100, [], 7⟩ ∧
      (simulateInvestment ((0 : ℚ) / 100 / 12) 1 (99 / 100)).balance < 1 ∧
      (solveState 1 1 0).high = 1 ∧
      round2 (solveState 1 1 0).high ≠ 99 / 100 := by decide

/-- C2 (amended): for a valid input on which `calculateRequiredDeposit`
returns a 200 payload, the projection is either the recorded rows of one
simulated deposit — an ordered sequence of length `months` whose `j`-th row
carries month index `j + 1` and a balance already rounded to 2 decimals —
or the empty list, which the source returns whenever the balance at every
probed midpoint stayed below the target (`finalProjection` is initialised
to `[]` and only overwritten in the `high = mid` branch).  The claim's
unconditional `length == months` is refuted by
`C2_projection_length_counterexample`. -/
theorem C2_projection_shape_amended (goal rate : ℚ) (n : ℕ) (r : DepositResult)
    (hg : 0 < goal) (hn : 1 ≤ n) (hr : 0 ≤ rate)
    (hok : calculateRequiredDeposit (.num goal) (.num (n : ℚ)) (.num rate) = .ok r) :
    r.projection = [] ∨
      (r.projection.length = n ∧
        (∀ (j : ℕ) (h : j < r.projection.length), (r.projection.get ⟨j, h⟩).1 = j + 1) ∧
        ∀ p ∈ r.projection, round2 p.2 = p.2) := by
  obtain ⟨m, hmid, hr2⟩ := calc_ok_elim goal (n : ℚ) rate r hok
  obtain ⟨_, _, _, _, hproj⟩ := solveState_inv goal rate n hg hn hr
  rcases hproj with h | ⟨d, h⟩
  · left; rw [hr2]; exact h
  · right
    have hrp : r.projection = (simAux (rate / 100 / 12) d n 0 1).2 := by
      rw [hr2]
      show (solveState goal (n : ℚ) rate).finalProjection = _
      rw [h, simulateInvestment_natCast]
    refine ⟨by rw [hrp, simAux_proj_length], ?_, ?_⟩
    · intro j hj
      have hj2 : j < (simAux (rate / 100 / 12) d n 0 1).2.length := by
        rw [← hrp]; exact hj
      have := simAux_proj_month (rate / 100 / 12) d n 1 0 j hj2
      calc (r.projection.get ⟨j, hj⟩).1
          = ((simAux (rate / 100 / 12) d n 0 1).2.get ⟨j, hj2⟩).1 := by
            congr 1
            exact List.get_of_eq hrp _
        _ = j + 1 := by rw [this]; omega
    · intro p hp
      rw [hrp] at hp
      exact simAux_proj_rounded (rate / 100 / 12) d n 1 0 p hp

/-- Witness for C2 (amended) at `goalAmount = 10, months = 2,
annualRate = 0`, where the projection is nonempty. -/
theorem C2_projection_shape_amended_witness :
    (DepositResult.mk (499 / 100) [(1, 5), (2, 10)] 10).projection = [] ∨
      ((DepositResult.mk (499 / 100) [(1, 5), (2, 10)] 10).projection.length = 2 ∧
        (∀ (j : ℕ)
          (h : j < (DepositResult.mk (499 / 100) [(1, 5), (2, 10)] 10).projection.length),
          ((DepositResult.mk (499 / 100) [(1, 5), (2, 10)] 10).projection.get
            ⟨j, h⟩).1 = j + 1) ∧
        ∀ p ∈ (DepositResult.mk (499 / 100) [(1, 5), (2, 10)] 10).projection,
          round2 p.2 = p.2) :=
  C2_projection_shape_amended 10 0 2 ⟨499 / 100, [(1, 5), (2, 10)], 10⟩
    (by norm_num) (by norm_num) (le_refl 0) (by decide)

/-- C2 counterexample: at `goalAmount = 1, months = 1, annualRate = 0` the
call succeeds but returns an empty projection, not one of length
`months = 1`: the balance at every probed midpoint stays below the target,
so `finalProjection` keeps its initial value `[]`. -/
theorem C2_projection_length_counterexample :
    calculateRequiredDeposit (.num 1) (.num 1) (.num 0) = .ok ⟨99 / 100, [], 7⟩ ∧
      (DepositResult.mk (99 / 100) [] 7).projection.length = 0 := by decide

set_option maxRecDepth 10000 in
/-- C3: the binary-search loop of `calculateRequiredDeposit` has no
explicit maximum-iteration bound — its only exit is the interval-width
condition `high - low > 0.01` turning false.  Evaluating the code at
`goalAmount = 2 ^ 101 / 100, months = 1, annualRate = 0` (a valid input:
the goal is positive), the loop runs 101 iterations — beyond the claimed
bound on the order of 100 — and still exits only through the width
condition. -/
theorem C3_no_iteration_cap_eval :
    (solveState ((2 ^ 101 : ℚ) / 100) 1 0).iterations = 101 ∧
      100 < (solveState ((2 ^ 101 : ℚ) / 100) 1 0).iterations ∧
      (solveState ((2 ^ 101 : ℚ) / 100) 1 0).high -
          (solveState ((2 ^ 101 : ℚ) / 100) 1 0).low ≤ 1 / 100 ∧
      (0 : ℚ) < (2 ^ 101 : ℚ) / 100 := by decide

/-- C8 (amended): `calculateRequiredDeposit` answers 400 exactly when the
three fields are not all numeric values satisfying `goalAmount > 0`,
`months > 0`, `annualRate >= 0`.  In particular non-numeric and
out-of-range inputs are rejected before any simulation runs, but
integrality of `months` is never checked: a fractional `months > 0`
passes validation and the simulation runs on it
(`C8_non_integer_months_counterexample`). -/
theorem C8_validation_amended (gv mv rv : JSVal) :
    calculateRequiredDeposit gv mv rv = .badRequest ↔
      ¬ ∃ g M r : ℚ, gv = .num g ∧ mv = .num M ∧ rv = .num r ∧
        0 < g ∧ 0 < M ∧ 0 ≤ r := by
  cases gv with
  | undef => simp [calculateRequiredDeposit]
  | nan => simp [calculateRequiredDeposit]
  | num g =>
    cases mv with
    | undef => simp [calculateRequiredDeposit]
    | nan => simp [calculateRequiredDeposit]
    | num M =>
      cases rv with
      | undef => simp [calculateRequiredDeposit]
      | nan => simp [calculateRequiredDeposit]
      | num r =>
        by_cases hv : g ≤ 0 ∨ M ≤ 0 ∨ r < 0
        · simp only [calculateRequiredDeposit, if_pos hv]
          constructor
          · intro _
            rintro ⟨g2, M2, r2, hge, hMe, hre, h1, h2, h3⟩
            obtain rfl : g = g2 := by injection hge
            obtain rfl : M = M2 := by injection hMe
            obtain rfl : r = r2 := by injection hre
            rcases hv with h | h | h <;> linarith
          · intro _; trivial
        · push_neg at hv
          simp only [calculateRequiredDeposit, if_neg (by push_neg; exact hv :
            ¬(g ≤ 0 ∨ M ≤ 0 ∨ r < 0))]
          rcases hmid : (solveState g M r).mid with _ | m <;>
            simp only
          · constructor
            · intro h; exact absurd h (by simp)
            · intro hneg
              exact absurd ⟨g, M, r, rfl, rfl, rfl, hv.1, hv.2.1, hv.2.2⟩ hneg
          · constructor
            · intro h; exact absurd h (by simp)
            · intro hneg
              exact absurd ⟨g, M, r, rfl, rfl, rfl, hv.1, hv.2.1, hv.2.2⟩ hneg

/-- Witness for C8 (amended): a non-numeric `months` is rejected with the
validation (400) response. -/
theorem C8_validation_amended_witness :
    calculateRequiredDeposit (.num 10) .nan (.num 0) = .badRequest :=
  (C8_validation_amended (.num 10) .nan (.num 0)).mpr
    (fun ⟨_, _, _, _, hMe, _⟩ => JSVal.noConfusion hMe)

/-- C8 counterexample: `months = 2.5` is not a positive integer, yet the
call is not rejected — validation passes, the simulation runs (the
returned projection holds the two rows its loop pushed), and a 200
response is returned. -/
theorem C8_non_integer_months_counterexample :
    calculateRequiredDeposit (.num 10) (.num (5 / 2)) (.num 0) =
        .ok ⟨499 / 100, [(1, 5), (2, 10)], 10⟩ ∧
      (5 / 2 : ℚ).den ≠ 1 := by decide

/-- C10: at `goalAmount = 0.005, months = 12, annualRate = 0` — a valid
input by the stated preconditions — the initial interval `[0, 0.005]` is
already no wider than `0.01`, the loop body never executes (`iterations`
stays 0), `mid` is never assigned, and the call answers with the internal
(500) error produced by the `catch` around `mid.toFixed(2)`. -/
theorem C10_undefined_mid_internal_error :
    ((0 : ℚ) < 1 / 200) ∧ ((1 / 200 : ℚ) - 0 ≤ 1 / 100) ∧
      (solveState (1 / 200) 12 0).iterations = 0 ∧
      (solveState (1 / 200) 12 0).mid = none ∧
      calculateRequiredDeposit (.num (1 / 200)) (.num 12) (.num 0) =
        .internalError := by decide

/-! ## Helper lemmas: the attempt limiter -/

/-- On a time-sorted queue, shifting expired entries off the front removes
exactly the entries outside the window. -/
theorem dropWhile_expired_eq_filter (now : ℤ) :
    ∀ (a : List ℤ), a.Sorted (· ≤ ·) →
      a.dropWhile (fun t => decide (WINDOW_MS < now - t)) =
        a.filter fun t => decide (now - t ≤ WINDOW_MS) := by
  intro a
  induction a with
  | nil => intro _; rfl
  | cons h tl ih =>
    intro hs
    rw [List.sorted_cons] at hs
    by_cases hexp : WINDOW_MS < now - h
    · rw [List.dropWhile_cons, if_pos (by simp only [decide_eq_true_eq]; omega), ih hs.2,
        List.filter_cons, if_neg (by simp only [decide_eq_true_eq]; omega)]
    · rw [List.dropWhile_cons, if_neg (by simp only [decide_eq_true_eq]; omega),
        List.filter_cons, if_pos (by simp only [decide_eq_true_eq]; omega)]
      congr 1
      exact (List.filter_eq_self.mpr fun b hb => by
        have := hs.1 b hb
        simp only [decide_eq_true_eq]
        omega).symm

/-- C6: on a time-sorted queue, `checkRateLimit` first evicts exactly the
timestamps older than the 60-second window (a prefix trim), then rejects
without recording when 5 or more remain, and otherwise appends `now` and
allows; consequently, for a fresh identity, five calls inside one window
are allowed, the sixth inside the same window is rejected, and once the
window has fully elapsed a new call is allowed again. -/
theorem C6_sliding_window_behaviour :
    (∀ (a : List ℤ) (now : ℤ), a.Sorted (· ≤ ·) →
      checkRateLimit a now =
        if MAX_ATTEMPTS ≤ (a.filter fun t => decide (now - t ≤ WINDOW_MS)).length
        then (false, a.filter fun t => decide (now - t ≤ WINDOW_MS))
        else (true, (a.filter fun t => decide (now - t ≤ WINDOW_MS)) ++ [now])) ∧
    (∀ t1 t2 t3 t4 t5 t6 t7 : ℤ,
      t1 ≤ t2 → t2 ≤ t3 → t3 ≤ t4 → t4 ≤ t5 → t5 ≤ t6 →
      t6 - t1 ≤ WINDOW_MS → WINDOW_MS < t7 - t5 →
      checkRateLimit [] t1 = (true, [t1]) ∧
      checkRateLimit [t1] t2 = (true, [t1, t2]) ∧
      checkRateLimit [t1, t2] t3 = (true, [t1, t2, t3]) ∧
      checkRateLimit [t1, t2, t3] t4 = (true, [t1, t2, t3, t4]) ∧
      checkRateLimit [t1, t2, t3, t4] t5 = (true, [t1, t2, t3, t4, t5]) ∧
      (checkRateLimit [t1, t2, t3, t4, t5] t6).1 = false ∧
      checkRateLimit [t1, t2, t3, t4, t5] t7 = (true, [t7])) := by
  constructor
  · intro a now hs
    rw [checkRateLimit, dropWhile_expired_eq_filter now a hs]
  · intro t1 t2 t3 t4 t5 t6 t7 h12 h23 h34 h45 h56 hwin hgone
    simp only [WINDOW_MS] at hwin hgone
    have d2 : [t1].dropWhile (fun t => decide (WINDOW_MS < t2 - t)) = [t1] := by
      rw [List.dropWhile_cons, if_neg (by simp only [WINDOW_MS, decide_eq_true_eq]; omega)]
    have d3 : [t1, t2].dropWhile (fun t => decide (WINDOW_MS < t3 - t)) = [t1, t2] := by
      rw [List.dropWhile_cons, if_neg (by simp only [WINDOW_MS, decide_eq_true_eq]; omega)]
    have d4 : [t1, t2, t3].dropWhile (fun t => decide (WINDOW_MS < t4 - t)) =
        [t1, t2, t3] := by
      rw [List.dropWhile_cons, if_neg (by simp only [WINDOW_MS, decide_eq_true_eq]; omega)]
    have d5 : [t1, t2, t3, t4].dropWhile (fun t => decide (WINDOW_MS < t5 - t)) =
        [t1, t2, t3, t4] := by
      rw [List.dropWhile_cons, if_neg (by simp only [WINDOW_MS, decide_eq_true_eq]; omega)]
    have d6 : [t1, t2, t3, t4, t5].dropWhile (fun t => decide (WINDOW_MS < t6 - t)) =
        [t1, t2, t3, t4, t5] := by
      rw [List.dropWhile_cons, if_neg (by simp only [WINDOW_MS, decide_eq_true_eq]; omega)]
    have d7 : [t1, t2, t3, t4, t5].dropWhile (fun t => decide (WINDOW_MS < t7 - t)) = [] := by
      rw [List.dropWhile_cons, if_pos (by simp only [WINDOW_MS, decide_eq_true_eq]; omega)]
      rw [List.dropWhile_cons, if_pos (by simp only [WINDOW_MS, decide_eq_true_eq]; omega)]
      rw [List.dropWhile_cons, if_pos (by simp only [WINDOW_MS, decide_eq_true_eq]; omega)]
      rw [List.dropWhile_cons, if_pos (by simp only [WINDOW_MS, decide_eq_true_eq]; omega)]
      rw [List.dropWhile_cons, if_pos (by simp only [WINDOW_MS, decide_eq_true_eq]; omega)]
      rw [List.dropWhile_nil]
    refine ⟨rfl, ?_, ?_, ?_, ?_, ?_, ?_⟩
    · rw [checkRateLimit, d2]; rfl
    · rw [checkRateLimit, d3]; rfl
    · rw [checkRateLimit, d4]; rfl
    · rw [checkRateLimit, d5]; rfl
    · rw [checkRateLimit, d6]; rfl
    · rw [checkRateLimit, d7]; rfl

/-- Witness for C6 at a concrete full queue and a concrete six-call run. -/
theorem C6_sliding_window_behaviour_witness :
    (checkRateLimit [0, 10, 20, 30, 40] 50 =
      if MAX_ATTEMPTS ≤
          (([0, 10, 20, 30, 40] : List ℤ).filter fun t =>
            decide ((50 : ℤ) - t ≤ WINDOW_MS)).length
      then (false, ([0, 10, 20, 30, 40] : List ℤ).filter fun t =>
        decide ((50 : ℤ) - t ≤ WINDOW_MS))
      else (true, (([0, 10, 20, 30, 40] : List ℤ).filter fun t =>
        decide ((50 : ℤ) - t ≤ WINDOW_MS)) ++ [50])) ∧
    (checkRateLimit [] 0 = (true, [0]) ∧
      checkRateLimit [0] 10 = (true, [0, 10]) ∧
      checkRateLimit [0, 10] 20 = (true, [0, 10, 20]) ∧
      checkRateLimit [0, 10, 20] 30 = (true, [0, 10, 20, 30]) ∧
      checkRateLimit [0, 10, 20, 30] 40 = (true, [0, 10, 20, 30, 40]) ∧
      (checkRateLimit [0, 10, 20, 30, 40] 50).1 = false ∧
      checkRateLimit [0, 10, 20, 30, 40] 70000 = (true, [70000])) :=
  ⟨C6_sliding_window_behaviour.1 [0, 10, 20, 30, 40] 50 (by decide),
    C6_sliding_window_behaviour.2 0 10 20 30 40 50 70000 (by decide) (by decide)
      (by decide) (by decide) (by decide) (by decide) (by decide)⟩

/-- C7: on any reachable queue (one holding at most `MAX_ATTEMPTS`
timestamps — the bound every queue the limiter ever stores satisfies,
as the second conjunct shows it is preserved), a rejected call leaves the
per-identity state exactly as it was: the limiter mutates only on
successful admission. -/
theorem C7_denial_leaves_state_unchanged (a : List ℤ) (now : ℤ)
    (hlen : a.length ≤ MAX_ATTEMPTS) :
    ((checkRateLimit a now).1 = false → (checkRateLimit a now).2 = a) ∧
      (checkRateLimit a now).2.length ≤ MAX_ATTEMPTS := by
  have hsfx : a.dropWhile (fun t => decide (WINDOW_MS < now - t)) <:+ a :=
    List.dropWhile_suffix _
  have hple : (a.dropWhile (fun t => decide (WINDOW_MS < now - t))).length ≤ a.length :=
    hsfx.sublist.length_le
  rw [checkRateLimit]
  by_cases hfull :
      MAX_ATTEMPTS ≤ (a.dropWhile (fun t => decide (WINDOW_MS < now - t))).length
  · rw [if_pos hfull]
    constructor
    · intro _
      exact hsfx.sublist.eq_of_length (by omega)
    · simpa using le_trans hple hlen
  · rw [if_neg hfull]
    constructor
    · intro h
      exact absurd h (by simp)
    · simp only [List.length_append, List.length_cons, List.length_nil]
      omega

/-- Witness for C7 at a full five-entry queue that gets rejected. -/
theorem C7_denial_leaves_state_unchanged_witness :
    ((checkRateLimit [0, 10, 20, 30, 40] 50).1 = false →
      (checkRateLimit [0, 10, 20, 30, 40] 50).2 = [0, 10, 20, 30, 40]) ∧
      (checkRateLimit [0, 10, 20, 30, 40] 50).2.length ≤ MAX_ATTEMPTS :=
  C7_denial_leaves_state_unchanged [0, 10, 20, 30, 40] 50 (by decide)

/-- C5: `verifyCode` recomputes the generator's code for the current
counter and compares the submitted code with it for equality, so it
accepts exactly the submitted codes equal to the current code — in
particular the freshly generated code verifies, and every other string
(such as a code for an adjacent counter that differs from the current one)
is rejected.  The spec's “constant-time equality” is a timing property
with no observable content in this functional embedding; the source
compares with `!==`. -/
theorem C5_verify_exact_match (hmac : List Byte → List Byte → List Byte)
    (secret : List Byte) (submitted : List Char) (nowMs : ℕ) :
    (verifyCode hmac secret submitted nowMs = true ↔
      submitted = totpFromBytes hmac secret nowMs) ∧
    verifyCode hmac secret (totpFromBytes hmac secret nowMs) nowMs = true ∧
    ∀ other : List Char, other ≠ totpFromBytes hmac secret nowMs →
      verifyCode hmac secret other nowMs = false := by
  refine ⟨?_, ?_, ?_⟩
  · simp [verifyCode]
  · simp [verifyCode]
  · intro other hne
    simp [verifyCode, hne]

/-- Witness for C5: the generated code verifies, a different string is
rejected. -/
theorem C5_verify_exact_match_witness :
    verifyCode hmacZero [] (totpFromBytes hmacZero [] 0) 0 = true ∧
      verifyCode hmacZero [] ['1'] 0 = false :=
  ⟨(C5_verify_exact_match hmacZero [] [] 0).2.1,
    (C5_verify_exact_match hmacZero [] [] 0).2.2 ['1'] (by decide)⟩

/-! ## Helper lemmas: the base32 codec -/

/-- Splitting a 5-bit value back into bits undoes `val5`. -/
theorem bits5_val5 : ∀ a b c d e : Bool, bits5 (val5 a b c d e) = [a, b, c, d, e] := by
  decide

/-- 5-bit values are below 32. -/
theorem val5_lt : ∀ a b c d e : Bool, val5 a b c d e < 32 := by decide

/-- Looking a character of the alphabet back up recovers its value. -/
theorem alpha_inv : ∀ v, v < 32 → charVal (base32Alphabet.getD v 'A') = some v := by
  decide

/-- Every value produced by `chunk5` is a 5-bit value. -/
theorem chunk5_lt : ∀ (l : List Bool), ∀ v ∈ chunk5 l, v < 32 := by
  intro l
  induction l using chunk5.induct with
  | case1 a b c d e rest ih =>
    intro v hv
    rw [chunk5] at hv
    rcases List.mem_cons.mp hv with rfl | hv
    · exact val5_lt a b c d e
    · exact ih v hv
  | case2 l h =>
    intro v hv
    rw [chunk5.eq_def] at hv
    rcases l with _ | ⟨a, _ | ⟨b, _ | ⟨c, _ | ⟨d, _ | ⟨e, rest⟩⟩⟩⟩⟩ <;>
      simp at hv
    exact absurd rfl (h a b c d e rest)

/-- Mapping values through the alphabet and back yields them unchanged. -/
theorem charVals_map : ∀ vs : List ℕ, (∀ v ∈ vs, v < 32) →
    charVals (vs.map fun v => base32Alphabet.getD v 'A') = some vs := by
  intro vs
  induction vs with
  | nil => intro _; rfl
  | cons v vs ih =>
    intro hv
    rw [List.map_cons, charVals, alpha_inv v (hv v (by simp)),
      ih fun w hw => hv w (by simp [hw])]

/-- On bit streams whose length is a multiple of 5, chunking and
re-flattening is the identity. -/
theorem chunk5_bits : ∀ (n : ℕ) (l : List Bool), l.length = 5 * n →
    ((chunk5 l).map bits5).flatten = l := by
  intro n
  induction n with
  | zero =>
    intro l hl
    have h0 : l = [] := List.length_eq_zero.mp (by omega)
    subst h0
    rfl
  | succ n ih =>
    intro l hl
    rcases l with _ | ⟨a, _ | ⟨b, _ | ⟨c, _ | ⟨d, _ | ⟨e, rest⟩⟩⟩⟩⟩ <;>
      simp only [List.length_cons, List.length_nil] at hl <;> try omega
    rw [chunk5, List.map_cons, List.flatten_cons, bits5_val5,
      ih rest (by omega)]
    rfl

set_option maxRecDepth 4000 in
/-- Reassembling the bits of a byte gives the byte back. -/
theorem byteOfBits_testBits : ∀ b : Byte,
    byteOfBits (b.val.testBit 7) (b.val.testBit 6) (b.val.testBit 5)
      (b.val.testBit 4) (b.val.testBit 3) (b.val.testBit 2) (b.val.testBit 1)
      (b.val.testBit 0) = b := by decide

/-- Fewer than eight bits produce no byte. -/
theorem bytesOfBits_small : ∀ l : List Bool, l.length < 8 → bytesOfBits l = [] := by
  intro l hl
  rcases l with _ | ⟨a, _ | ⟨b, _ | ⟨c, _ | ⟨d, _ | ⟨e, _ | ⟨f, _ | ⟨g, _ | ⟨h, rest⟩⟩⟩⟩⟩⟩⟩⟩ <;>
    first
      | rfl
      | (simp only [List.length_cons] at hl; omega)

/-- Regrouping the bit stream of a byte sequence recovers the bytes,
whatever trailing group of fewer than eight bits follows. -/
theorem bytesOfBits_append : ∀ (bs : List Byte) (rest : List Bool),
    rest.length < 8 → bytesOfBits (bytesBits bs ++ rest) = bs := by
  intro bs
  induction bs with
  | nil => intro rest h; exact bytesOfBits_small rest h
  | cons b bs ih =>
    intro rest h
    show bytesOfBits ((byteBits b ++ bytesBits bs) ++ rest) = b :: bs
    rw [List.append_assoc]
    show byteOfBits _ _ _ _ _ _ _ _ :: bytesOfBits (bytesBits bs ++ rest) = b :: bs
    rw [ih rest h, byteOfBits_testBits]

/-- One unknown character poisons the whole lookup. -/
theorem charVals_none : ∀ s : List Char, (∃ c ∈ s, charVal c = none) →
    charVals s = none := by
  intro s
  induction s with
  | nil => rintro ⟨c, hc, _⟩; simp at hc
  | cons a s ih =>
    rintro ⟨c, hc, hv⟩
    rcases List.mem_cons.mp hc with rfl | hc
    · rw [charVals, hv]
    · rw [charVals, ih ⟨c, hc, hv⟩]
      cases charVal a <;> rfl

/-- C9: decoding the padding-free base32 encoding of any byte sequence —
in particular any 20-byte secret — returns exactly that sequence (`encode`
is a total function and `decode` succeeds on its output), and `decode`
fails on any input containing a character outside the base32 alphabet. -/
theorem C9_base32_roundtrip :
    (∀ bs : List Byte, base32decode (base32encode bs) = some bs) ∧
    (∀ s : List Char, (∃ c ∈ s, charVal c = none) → base32decode s = none) := by
  constructor
  · intro bs
    rw [base32encode, base32decode,
      charVals_map _ (chunk5_lt (padTo5 (bytesBits bs)))]
    have hdvd : ∃ n, (padTo5 (bytesBits bs)).length = 5 * n := by
      rw [padTo5, List.length_append, List.length_replicate]
      exact ⟨((bytesBits bs).length + (5 - (bytesBits bs).length % 5) % 5) / 5, by omega⟩
    obtain ⟨n, hn⟩ := hdvd
    show some (bytesOfBits (List.map bits5 (chunk5 (padTo5 (bytesBits bs)))).flatten) =
      some bs
    rw [chunk5_bits n _ hn, padTo5]
    rw [bytesOfBits_append bs _ (by rw [List.length_replicate]; omega)]
  · intro s hs
    rw [base32decode, charVals_none s hs]
    rfl

/-! ## Helper lemmas: the TOTP engine -/

/-- Bitwise-or of a multiple of `2 ^ n` with a value below `2 ^ n` is their
sum: the JavaScript `|` chains in `generateTOTP` combine disjoint bit
ranges. -/
theorem shiftLeft_lor_eq_add (a y n : ℕ) (h : y < 2 ^ n) :
    (a <<< n) ||| y = a * 2 ^ n + y := by
  apply Nat.eq_of_testBit_eq
  intro i
  rw [Nat.testBit_lor, Nat.testBit_shiftLeft]
  by_cases hi : i < n
  · rw [decide_eq_false (by omega : ¬ i ≥ n), Bool.false_and, Bool.false_or]
    have hmod : (a * 2 ^ n + y) % 2 ^ n = y := by
      rw [show a * 2 ^ n + y = 2 ^ n * a + y by ring, Nat.mul_add_mod,
        Nat.mod_eq_of_lt h]
    have ht := Nat.testBit_mod_two_pow (a * 2 ^ n + y) n i
    rw [hmod, decide_eq_true hi, Bool.true_and] at ht
    exact ht
  · push_neg at hi
    have hy : y.testBit i = false :=
      Nat.testBit_lt_two_pow (lt_of_lt_of_le h (Nat.pow_le_pow_right (by norm_num) hi))
    rw [hy, Bool.or_false, decide_eq_true (by omega : i ≥ n), Bool.true_and]
    have hdiv : (a * 2 ^ n + y) >>> n = a := by
      rw [Nat.shiftRight_eq_div_pow, show a * 2 ^ n + y = 2 ^ n * a + y by ring,
        Nat.mul_add_div (Nat.two_pow_pos n), Nat.div_eq_of_lt h, Nat.add_zero]
    calc a.testBit (i - n)
        = ((a * 2 ^ n + y) >>> n).testBit (i - n) := by rw [hdiv]
      _ = (a * 2 ^ n + y).testBit (n + (i - n)) := Nat.testBit_shiftRight _
      _ = (a * 2 ^ n + y).testBit i := by congr 1; omega

/-- The same fact with the shift written as multiplication. -/
theorem lor_mul_two_pow_add (a y n : ℕ) (h : y < 2 ^ n) :
    (a * 2 ^ n) ||| y = a * 2 ^ n + y := by
  conv_lhs => rw [← Nat.shiftLeft_eq]
  exact shiftLeft_lor_eq_add a y n h

/-- The two `writeUInt32BE` calls build exactly the 8-byte big-endian
serialization of any counter below `2 ^ 32`. -/
theorem counterBytes_eq_beBytes8 (c : ℕ) (h : c < 2 ^ 32) :
    counterBytes c = beBytes8 c := by
  have h56 : c / 72057594037927936 = 0 := Nat.div_eq_of_lt (by omega)
  have h48 : c / 281474976710656 = 0 := Nat.div_eq_of_lt (by omega)
  have h40 : c / 1099511627776 = 0 := Nat.div_eq_of_lt (by omega)
  have h32 : c / 4294967296 = 0 := Nat.div_eq_of_lt (by omega)
  simp [counterBytes, beUInt32, beBytes8, Fin.ext_iff, h56, h48, h40, h32]

/-- The source's shift-and-or truncation equals the big-endian 4-byte read
described by the claim. -/
theorem dynamicTruncate_eq_truncSpec (digest : List Byte) :
    dynamicTruncate digest = truncSpec digest := by
  rw [dynamicTruncate, truncSpec]
  have hb : ∀ i : ℕ, (digest.getD i (0 : Byte)).val < 256 := fun i => (digest.getD i 0).isLt
  have h1 := hb ((digest.getD 19 0).val % 16 + 1)
  have h2 := hb ((digest.getD 19 0).val % 16 + 2)
  have h3 := hb ((digest.getD 19 0).val % 16 + 3)
  rw [Nat.shiftLeft_eq, Nat.shiftLeft_eq, Nat.shiftLeft_eq]
  rw [lor_mul_two_pow_add _ _ 24 (by omega)]
  rw [show ((digest.getD ((digest.getD 19 0).val % 16) 0).val % 128) * 2 ^ 24 +
      (digest.getD ((digest.getD 19 0).val % 16 + 1) 0).val * 2 ^ 16 =
      (((digest.getD ((digest.getD 19 0).val % 16) 0).val % 128) * 2 ^ 8 +
        (digest.getD ((digest.getD 19 0).val % 16 + 1) 0).val) * 2 ^ 16 by ring]
  rw [lor_mul_two_pow_add _ _ 16 (by omega)]
  rw [show (((digest.getD ((digest.getD 19 0).val % 16) 0).val % 128) * 2 ^ 8 +
      (digest.getD ((digest.getD 19 0).val % 16 + 1) 0).val) * 2 ^ 16 +
      (digest.getD ((digest.getD 19 0).val % 16 + 2) 0).val * 2 ^ 8 =
      ((((digest.getD ((digest.getD 19 0).val % 16) 0).val % 128) * 2 ^ 8 +
        (digest.getD ((digest.getD 19 0).val % 16 + 1) 0).val) * 2 ^ 8 +
        (digest.getD ((digest.getD 19 0).val % 16 + 2) 0).val) * 2 ^ 8 by ring]
  rw [lor_mul_two_pow_add _ _ 8 (by omega)]

/-- Decimal digit characters really are digits. -/
theorem digit_char_isDigit : ∀ r, r < 10 → (Char.ofNat (48 + r)).isDigit = true := by
  decide

/-- A value below `10 ^ k` prints in at most `k` digits (for `k ≥ 1`). -/
theorem natDecAux_length : ∀ (fuel n k : ℕ), n < fuel → n < 10 ^ k → 1 ≤ k →
    (natDecAux fuel n).length ≤ k := by
  intro fuel
  induction fuel with
  | zero => intro n k hnf _ _; omega
  | succ fuel ih =>
    intro n k hnf hnk hk
    rw [natDecAux]
    by_cases h10 : n < 10
    · rw [if_pos h10]
      simpa using hk
    · rw [if_neg h10, List.length_append]
      simp only [List.length_cons, List.length_nil]
      have hk2 : 2 ≤ k := by
        by_contra hlt
        push_neg at hlt
        have hk1 : k = 1 := by omega
        subst hk1
        simp only [pow_one] at hnk
        omega
      have hdivn : n / 10 < n := Nat.div_lt_self (by omega) (by norm_num)
      have hrec : (natDecAux fuel (n / 10)).length ≤ k - 1 := by
        apply ih
        · omega
        · rw [Nat.div_lt_iff_lt_mul (by norm_num : (0:ℕ) < 10)]
          calc n < 10 ^ k := hnk
            _ = 10 ^ (k - 1) * 10 := by
              rw [← pow_succ]
              congr 1
              omega
        · omega
      omega

/-- Every character the decimal printer emits is an ASCII digit. -/
theorem natDecAux_digits : ∀ (fuel n : ℕ), ∀ c ∈ natDecAux fuel n, c.isDigit = true := by
  intro fuel
  induction fuel with
  | zero => intro n c hc; simp [natDecAux] at hc
  | succ fuel ih =>
    intro n c hc
    rw [natDecAux] at hc
    by_cases h10 : n < 10
    · rw [if_pos h10] at hc
      simp only [List.mem_singleton] at hc
      subst hc
      exact digit_char_isDigit _ (Nat.mod_lt _ (by norm_num))
    · rw [if_neg h10] at hc
      rcases List.mem_append.mp hc with hc | hc
      · exact ih (n / 10) c hc
      · simp only [List.mem_singleton] at hc
        subst hc
        exact digit_char_isDigit _ (Nat.mod_lt _ (by norm_num))

/-- Padding a string of at most six characters yields exactly six. -/
theorem padStart6_length (s : List Char) (h : s.length ≤ 6) :
    (padStart6 s).length = 6 := by
  rw [padStart6, List.length_append, List.length_replicate]
  omega

/-- Padding with zeros preserves digit-ness. -/
theorem padStart6_digits (s : List Char) (hs : ∀ c ∈ s, c.isDigit = true) :
    ∀ c ∈ padStart6 s, c.isDigit = true := by
  intro c hc
  rcases List.mem_append.mp hc with hc | hc
  · have := List.eq_of_mem_replicate hc
    subst this
    decide
  · exact hs c hc

/-- C4: over the byte secret, `generateTOTP` is exactly the claimed
pipeline — `counter = ⌊⌊ms/1000⌋/30⌋`, serialized as the 8-byte big-endian
counter (the two `writeUInt32BE` calls agree with it whenever the counter
fits 32 bits), fed with the secret to the 160-bit-digest keyed hash,
dynamically truncated (offset from the low 4 bits of byte 19, 4 bytes read
big-endian with the top bit masked), reduced modulo 1,000,000, and printed
zero-padded to exactly 6 ASCII digits (raw value 42 prints as "000042").
The keyed hash itself is a parameter: modelled from the spec, since
`crypto.createHmac('sha1', ...)` is not part of the repository. -/
theorem C4_generate_pipeline (hmac : List Byte → List Byte → List Byte)
    (secret : List Byte) (nowMs : ℕ) (hctr : nowMs / 1000 / 30 < 2 ^ 32) :
    totpFromBytes hmac secret nowMs = totpSpecPipeline hmac secret nowMs ∧
    (totpFromBytes hmac secret nowMs).length = 6 ∧
    (∀ c ∈ totpFromBytes hmac secret nowMs, c.isDigit = true) ∧
    padStart6 (natDec 42) = ['0', '0', '0', '0', '4', '2'] := by
  have hmod : dynamicTruncate (hmac secret (counterBytes (nowMs / 1000 / 30))) % 1000000
      < 10 ^ 6 := by
    have := Nat.mod_lt (dynamicTruncate (hmac secret (counterBytes (nowMs / 1000 / 30))))
      (show 0 < 1000000 by norm_num)
    norm_num
    omega
  have hlen : (natDec (dynamicTruncate (hmac secret (counterBytes (nowMs / 1000 / 30)))
      % 1000000)).length ≤ 6 := by
    rw [natDec]
    exact natDecAux_length _ _ 6 (by omega) hmod (by norm_num)
  refine ⟨?_, ?_, ?_, by decide⟩
  · rw [totpFromBytes, totpSpecPipeline, counterBytes_eq_beBytes8 _ hctr,
      dynamicTruncate_eq_truncSpec]
  · show (padStart6 _).length = 6
    exact padStart6_length _ hlen
  · show ∀ c ∈ padStart6 _, c.isDigit = true
    exact padStart6_digits _ (by rw [natDec]; exact natDecAux_digits _ _)

/-- Witness for C4 with the zero digest function, the empty secret, and
time 0. -/
theorem C4_generate_pipeline_witness :
    totpFromBytes hmacZero [] 0 = totpSpecPipeline hmacZero [] 0 ∧
    (totpFromBytes hmacZero [] 0).length = 6 ∧
    (∀ c ∈ totpFromBytes hmacZero [] 0, c.isDigit = true) ∧
    padStart6 (natDec 42) = ['0', '0', '0', '0', '4', '2'] :=
  C4_generate_pipeline hmacZero [] 0 (by decide)

/-- Witness for C9: a concrete round trip, and a rejected input holding a
character outside the alphabet. -/
theorem C9_base32_roundtrip_witness :
    base32decode (base32encode [⟨72, by omega⟩, ⟨105, by omega⟩]) =
      some [⟨72, by omega⟩, ⟨105, by omega⟩] ∧
    base32decode ['j', '1'] = none :=
  ⟨C9_base32_roundtrip.1 [⟨72, by omega⟩, ⟨105, by omega⟩],
    C9_base32_roundtrip.2 ['j', '1'] (by decide)⟩
